import Mathlib

/-!
Verification of the duration-driven clip-selection and render pipeline of the
Videomaker repository, as a shallow embedding in Lean 4.

Clip durations (floats in Python) are modelled as rationals; the random
choices of `random.choice` are modelled as an explicit list of indices into
the current pool; external process outcomes (ffmpeg / ffprobe runs, file
deletions) are modelled as explicit environment parameters.  Loops whose
termination is itself in question are modelled with explicit fuel, `none`
meaning the loop has not finished within the given fuel.

Layout: all definitions first, then the theorems.
-/

/-- The two codec argument sets an encoder invocation can carry: the GPU
bundle (`h264_nvenc`) and the CPU bundle (`libx264`). -/
inductive Codec
  | nvenc
  | libx264
deriving DecidableEq

/-- What `result.stdout.strip()` of an ffprobe run can look like to the
caller: empty, text that `float(...)` rejects, or a parsed duration. -/
inductive Stdout
  | empty
  | unparsable
  | value (q : ℚ)
deriving DecidableEq

/-- Outcome of one deletion attempt (`os.remove` / `Path.unlink`):
success, `PermissionError`, `FileNotFoundError`, or any other error. -/
inductive DelResult
  | ok
  | permErr
  | notFound
  | otherErr
deriving DecidableEq

/-- An ffmpeg command that produces one background part, reduced to the
two properties the orientation claim is about: the `-vf scale=W:H` filter
(if any) and whether the stream is re-encoded (`-c:v h264_nvenc`) or
copied (`-c copy`). -/
structure CutCmd where
  scale : Option (ℕ × ℕ)
  reencode : Bool
deriving DecidableEq

/-- Frame size of the file an ffmpeg command writes: a `scale` filter sets
it; a plain stream copy keeps the source's size. -/
def outputRes (cmd : CutCmd) (src : ℕ × ℕ) : ℕ × ℕ :=
  match cmd.scale with
  | some r => r
  | none => src

/-- A sequence of pipeline steps, each either producing one intermediate
file (which the orchestrator appends to its temp-file list) or raising.
Execution stops at the first raising step.  Returns (files accumulated in
`temp_files`, overall outcome). -/
def runPipeline : List (Except Unit String) → List String × Except Unit Unit
  | [] => ([], .ok ())
  | step :: rest =>
    match step with
    | .error () => ([], .error ())
    | .ok p =>
      let t := runPipeline rest
      (p :: t.1, t.2)

namespace HookBackground

/-- Index picked by `random.choice(available_videos)`: the next entry of
the choice sequence, reduced modulo the current pool size so that every
choice denotes an element of the pool. -/
def pickIdx (pool : List ℚ) (choices : List ℕ) : ℕ :=
  choices.headD 0 % pool.length

/--
The selection loop of `HookBackgroundProcessor.select_random_videos`
(src/modules/hook_background_processor.py, lines 47-82).

State: `pool` is `available_videos` (each clip represented by its probed
duration), `current` is `current_duration`, `choices` supplies the indices
picked by `random.choice`.  `fullPool` is the result of re-globbing the
input directory, used by the replenishment step on line 80.

One recursive call per iteration of the `while` loop:
* loop guard `current_duration < total_duration and available_videos`
  (line 50);
* a clip with non-positive probed duration is removed and skipped
  (`continue`, lines 54-56), which bypasses the replenishment check;
* an overshooting clip is cut down to `total_duration - current_duration`
  (lines 58-74), so the accumulated total becomes exactly `T` and the loop
  breaks;
* otherwise the clip is consumed whole (lines 75-77) and the pool is
  replenished to the full glob when it is empty and the target is not yet
  met (lines 79-80).

Returns the final `current_duration` (the summed duration of the selected
segments), or `none` if the loop has not finished within `fuel` iterations.
-/
def selLoop (fullPool : List ℚ) (T : ℚ) : ℕ → List ℚ → ℚ → List ℕ → Option ℚ
  | 0, _, _, _ => none
  | fuel + 1, pool, current, choices =>
    if T ≤ current then some current
    else if pool = [] then some current
    else if pool.getD (pickIdx pool choices) 0 ≤ 0 then
      selLoop fullPool T fuel (pool.eraseIdx (pickIdx pool choices)) current
        choices.tail
    else if T < current + pool.getD (pickIdx pool choices) 0 then
      some T
    else
      selLoop fullPool T fuel
        (if current + pool.getD (pickIdx pool choices) 0 < T ∧
            pool.eraseIdx (pickIdx pool choices) = []
         then fullPool else pool.eraseIdx (pickIdx pool choices))
        (current + pool.getD (pickIdx pool choices) 0) choices.tail

/--
`HookBackgroundProcessor.select_random_videos` (lines 38-82): raises
(`.error`, the `ValueError` of line 45) when the directory holds no clips
at all, otherwise runs the selection loop starting from the full pool and
zero accumulated duration.
-/
def selectRandomVideos (fullPool : List ℚ) (T : ℚ) (choices : List ℕ)
    (fuel : ℕ) : Except Unit (Option ℚ) :=
  if fullPool = [] then .error ()
  else .ok (selLoop fullPool T fuel fullPool 0 choices)

/--
One pass of the `for video in available_videos` loop inside the reuse
branch of `HookBackgroundProcessor.process_background_videos`
(src/modules/hook_background_processor.py, lines 164-174): each clip with
non-positive probed duration is skipped, each usable clip is appended and
its duration accumulated, and the pass breaks as soon as the accumulated
duration reaches the target.  Returns the accumulated duration after the
pass. -/
def fillPass (T : ℚ) : List ℚ → ℚ → ℚ
  | [], current => current
  | d :: rest, current =>
    if d ≤ 0 then fillPass T rest current
    else if T ≤ current + d then current + d
    else fillPass T rest (current + d)

/--
The reuse loop `while current_duration < total_duration` of
`process_background_videos` (lines 162-174): repeats `fillPass` over the
globbed video list until the accumulated duration reaches the target.
Fuel-indexed; `none` means the loop has not terminated within `fuel`
iterations of the outer `while`. -/
def fillLoop (durations : List ℚ) (T : ℚ) : ℕ → ℚ → Option ℚ
  | 0, _ => none
  | fuel + 1, current =>
    if T ≤ current then some current
    else fillLoop durations T fuel (fillPass T durations current)

/-- Background clip pool directory selected by the orientation flag
(`process_background_videos`, line 137). -/
def inputDirName (isVertical : Bool) : String :=
  if isVertical then "Input_9_16" else "Input_16_9"

/-- The ffmpeg command cutting the hook background part
(`process_background_videos`, lines 185-204): vertical scales to
1080x1920 and re-encodes with `h264_nvenc`; horizontal stream-copies with
no scale filter. -/
def hookCutCmd (isVertical : Bool) : CutCmd :=
  if isVertical then ⟨some (1080, 1920), true⟩ else ⟨none, false⟩

/-- The ffmpeg command cutting the main background part out of the first
clip (lines 211-232): same orientation split as the hook cut. -/
def mainCutCmd (isVertical : Bool) : CutCmd :=
  if isVertical then ⟨some (1080, 1920), true⟩ else ⟨none, false⟩

/-- The ffmpeg commands producing the `main_part_{i}` pieces
(lines 242-316): same orientation split as the hook cut. -/
def mainPartCmd (isVertical : Bool) : CutCmd :=
  if isVertical then ⟨some (1080, 1920), true⟩ else ⟨none, false⟩

/-- Fixed temp file name of the hook background part
(`process_background_videos`, line 177). -/
def hookBackgroundName : String := "hook_background.mp4"

/-- Fixed temp file name of the main background part (line 178). -/
def mainBackgroundName : String := "main_background.mp4"

/-- Fixed name of the concat manifest written by
`HookBackgroundProcessor.concatenate_videos` (line 91). -/
def backgroundConcatName : String := "concat.txt"

/-- Fixed temp file names of the `main_part_{i}` pieces
(lines 241 and 274). -/
def mainPartName (i : ℕ) : String :=
  "main_part_" ++ toString i ++ ".mp4"

/--
`HookBackgroundProcessor.concatenate_videos` (lines 84-119): writes the
manifest `concat.txt`, runs the concat encode, and unlinks the manifest
only after the encode returns (lines 108-112); the `except` clauses log
and re-raise.  Returns (outcome, whether the manifest was deleted).
-/
def backgroundConcatenateVideos (encodeOk : Bool) :
    Except Unit Unit × Bool :=
  if encodeOk then (.ok (), true) else (.error (), false)

end HookBackground

namespace VideoCutter

/--
`VideoCutter.cut_video` (src/modules/video_cutter.py, lines 104-182).
`run c` is the outcome of one ffmpeg invocation carrying codec `c`
(`true` = exit code 0 and output file present).  With `gpuEnabled`, a
failed run falls back to one recursive call with `gpu_enabled=False`
(lines 155-160); the CPU call returns its own outcome without any further
retry (line 160).  Returns (success, number of ffmpeg invocations made).
-/
def cutVideo (run : Codec → Bool) : Bool → Bool × ℕ
  | false => (run .libx264, 1)
  | true =>
    if run .nvenc then (true, 1)
    else ((cutVideo run false).1, 1 + (cutVideo run false).2)
termination_by b => cond b 1 0
decreasing_by simp

/--
`VideoCutter.get_video_duration` (src/modules/video_cutter.py, lines
91-102): runs ffprobe with `check=True` and parses the output as a float;
the `except` clause logs and re-raises, so any probe failure (non-zero
exit, unparsable or empty output) propagates to the caller as an
exception (`.error`).  `probe = none` models `subprocess.run` itself
raising. -/
def cutterGetVideoDuration (probe : Option (ℤ × Stdout)) :
    Except Unit ℚ :=
  match probe with
  | none => .error ()
  | some (rc, out) =>
    if rc ≠ 0 then .error ()
    else
      match out with
      | .value q => .ok q
      | _ => .error ()

end VideoCutter

namespace HookVideo

/-- What the probing code can observe about one file on disk:
whether the path exists, the result of `stat` (`none` = `stat` raised),
and the outcome of the ffprobe subprocess (`none` = `subprocess.run`
raised, e.g. the file moved mid-probe). -/
structure FileInfo where
  present : Bool
  size : Option ℕ
  probe : Option (ℤ × Stdout)
deriving DecidableEq

/-- The environment of one `get_video_duration` call: the resolved input
path and the first match of the sibling-file glob
`parent.glob(stem*suffix)` (`none` = no similar file found). -/
structure ProbeEnv where
  main : FileInfo
  sibling : Option FileInfo
deriving DecidableEq

/--
`HookVideoProcessor.get_video_duration`
(src/modules/hook_video_processor.py, lines 76-145; identical code in
`VideoProcessor.get_video_duration`, src/modules/video_processor.py,
lines 47-116):

* if the resolved path does not exist, take the first file found by the
  sibling glob if any (lines 82-86);
* if the (possibly substituted) path still does not exist, return `0.0`;
* if `stat` raises or the file size is zero, return `0.0`;
* if the ffprobe subprocess raises, exits non-zero, prints nothing, or
  prints something `float` cannot parse, return `0.0`;
* otherwise return the parsed duration.
-/
def getVideoDuration (env : ProbeEnv) : ℚ :=
  let f := if env.main.present then env.main
           else
             match env.sibling with
             | some s => s
             | none => env.main
  if f.present = false then 0
  else
    match f.size with
    | none => 0
    | some sz =>
      if sz = 0 then 0
      else
        match f.probe with
        | none => 0
        | some (rc, out) =>
          if rc ≠ 0 then 0
          else
            match out with
            | .empty => 0
            | .unparsable => 0
            | .value q => q

/--
The retry loop of `HookVideoProcessor.process_hook_video`
(src/modules/hook_video_processor.py, lines 446-511):
`for attempt in range(retry_count + 1)` with `retry_count = 1`.
`outcome attempt` is whether the whole pipeline body of that attempt
succeeds.  On success the loop breaks; on failure with retries left it
sleeps `retry_delay` and retries; on failure with no retries left it
re-raises.  `remaining` is the number of retries still allowed.
Returns `.ok n` (success after `n` total attempts) or `.error n` (failure
surfaced after `n` total attempts).
-/
def attemptLoop (outcome : ℕ → Bool) : ℕ → ℕ → Except ℕ ℕ
  | attempt, 0 =>
    if outcome attempt then .ok (attempt + 1) else .error (attempt + 1)
  | attempt, remaining + 1 =>
    if outcome attempt then .ok (attempt + 1)
    else attemptLoop outcome (attempt + 1) remaining

/-- `process_hook_video` runs the whole pipeline under a single bounded
retry: `retry_count = 1` (line 447), so at most two total attempts. -/
def processHookVideo (outcome : ℕ → Bool) : Except ℕ ℕ :=
  attemptLoop outcome 0 1

/-- `HookVideoProcessor.get_encoding_settings` (lines 178-212): the codec
bundle appended to encoder invocations is the GPU bundle exactly when
`check_gpu_support()` found `h264_nvenc`, else the CPU bundle. -/
def getEncodingSettings (gpuSupport : Bool) : Codec :=
  if gpuSupport then .nvenc else .libx264

/--
`HookVideoProcessor._add_thumbnail_with_fade` (lines 246-296): the first
ffmpeg run carries the codec chosen by `get_encoding_settings`; on
`CalledProcessError` the command is retried once with the NVENC-specific
options stripped and `libx264` appended (lines 282-290); a second failure
re-raises.  Returns `.ok n` with the number of encoder invocations, or
`.error ()`.
-/
def addThumbnailWithFade (run : Codec → Bool) (gpuSupport : Bool) :
    Except Unit ℕ :=
  if run (getEncodingSettings gpuSupport) then .ok 1
  else if run .libx264 then .ok 2
  else .error ()

/--
`HookVideoProcessor._process_video_with_subtitle` (lines 298-375): the
subtitle burn hardcodes `-c:v h264_nvenc` (line 347) and its
`except subprocess.CalledProcessError` clause only logs and re-raises
(lines 370-372) — there is no CPU fallback in this component.
-/
def processVideoWithSubtitle (run : Codec → Bool) : Except Unit Unit :=
  if run .nvenc then .ok () else .error ()

/-- The scale filter of the subtitle burn
(`_process_video_with_subtitle`, line 341): 1080x1920 when vertical,
1920x1080 when horizontal. -/
def subtitleScale (isVertical : Bool) : ℕ × ℕ :=
  if isVertical then (1080, 1920) else (1920, 1080)

/-- `HookVideoProcessor.get_temp_filename` (lines 420-423): the name is
built from the base name, the current wall-clock second, and the
extension — it embeds no job identity. -/
def getTempFilename (baseName ext : String) (timestamp : ℕ) : String :=
  baseName ++ "_" ++ toString timestamp ++ "." ++ ext

/-- Fixed name of the concat manifest written by
`HookVideoProcessor.concatenate_videos` (line 386). -/
def concatListName : String := "concat_list.txt"

/-- Fixed name of the concat manifest written by
`HookVideoProcessor._concatenate_videos` (line 526). -/
def videoListName : String := "video_list.txt"

/--
The temp file names one `process_hook_video` job creates in the shared
`temp` directory, as a function of the job identity and the clock second
at creation: the timestamped names of lines 457-458, 487 and 493, the
fixed background part names of `process_background_videos` (lines
177-178), and the fixed manifest names (lines 91, 386, 526).  The
`jobId` parameter is not used by any of the name builders — no per-job
identifier is embedded anywhere.
-/
def jobTempNames (jobId : ℕ) (timestamp : ℕ) : List String :=
  [getTempFilename "normalized_hook" "wav" timestamp,
   getTempFilename "normalized_main" "wav" timestamp,
   getTempFilename "hook_with_thumbnail" "mp4" timestamp,
   getTempFilename "main_with_subtitle" "mp4" timestamp,
   HookBackground.hookBackgroundName,
   HookBackground.mainBackgroundName,
   HookBackground.backgroundConcatName,
   concatListName,
   videoListName]

/--
The temp-file lifecycle of `process_hook_video` (lines 446-520): the
pipeline body may be attempted twice (steps `s1`, then on failure `s2`),
`temp_files` accumulates the artifacts of both attempts, and the
`finally` block (lines 516-520) submits the accumulated list to
`_cleanup_temp_files` on every terminal outcome.  Returns
(outcome, the list submitted to cleanup).
-/
def processHookVideoCleanup (s1 s2 : List (Except Unit String)) :
    Except Unit Unit × List String :=
  match (runPipeline s1).2 with
  | .ok () => (.ok (), (runPipeline s1).1)
  | .error () =>
    ((runPipeline s2).2, (runPipeline s1).1 ++ (runPipeline s2).1)

/--
`HookVideoProcessor.concatenate_videos` (lines 377-418): writes the
manifest `concat_list.txt`, runs the concat encode with `check=True`,
and unlinks the manifest only after the run returns (line 408); the
`except` clauses log and re-raise, so a failed encode leaves the
manifest on disk.  Returns (outcome, whether the manifest was deleted).
-/
def concatenateVideos (encodeOk : Bool) : Except Unit Unit × Bool :=
  if encodeOk then (.ok (), true) else (.error (), false)

/--
`HookVideoProcessor._concatenate_videos` (lines 522-586): writes the
manifest `video_list.txt`, runs the re-encoding concat with
`check=True`, and unlinks the manifest only after the run returns
(lines 578-582); the `except` clause logs and re-raises.  Returns
(outcome, whether the manifest was deleted).
-/
def reConcatenateVideos (encodeOk : Bool) : Except Unit Unit × Bool :=
  if encodeOk then (.ok (), true) else (.error (), false)

/--
The retry loop of `HookVideoProcessor._safe_delete_file`
(src/modules/hook_video_processor.py, lines 34-54):
`for attempt in range(max_retries)` around `os.remove`.
`res attempt` is the outcome of the deletion attempt numbered `attempt`;
`remaining` is the number of loop iterations left
(`max_retries - attempt`).  Success and `FileNotFoundError` return
`True`; any other error returns `False` at once; `PermissionError`
sleeps `delay` and doubles it while attempts remain, and falls out of
the loop (returning `False`) on the last attempt.  Every branch returns:
no exception propagates.  Returns
(return value, deletion attempts made, sleep delays performed).
-/
def safeDeleteLoop (res : ℕ → DelResult) (maxRetries : ℕ) :
    ℕ → ℕ → ℚ → Bool × ℕ × List ℚ
  | 0, attempt, _ => (false, attempt, [])
  | remaining + 1, attempt, delay =>
    match res attempt with
    | .ok => (true, attempt + 1, [])
    | .notFound => (true, attempt + 1, [])
    | .otherErr => (false, attempt + 1, [])
    | .permErr =>
      if attempt + 1 < maxRetries then
        let t := safeDeleteLoop res maxRetries remaining (attempt + 1)
          (delay * 2)
        (t.1, t.2.1, delay :: t.2.2)
      else (false, attempt + 1, [])

/-- `HookVideoProcessor._safe_delete_file` (lines 23-54): an absent path
returns immediately (`none` = no deletion attempted, lines 31-32);
otherwise the retry loop runs with all `max_retries` iterations ahead of
it (default `max_retries = 5`, `initial_delay = 0.5`). -/
def safeDeleteFile (fileExists : Bool) (res : ℕ → DelResult)
    (maxRetries : ℕ) (initialDelay : ℚ) : Option (Bool × ℕ × List ℚ) :=
  if fileExists = false then none
  else some (safeDeleteLoop res maxRetries maxRetries 0 initialDelay)

end HookVideo

namespace VideoProc

/--
The temp-file lifecycle of `VideoProcessor.process_video`
(src/modules/video_processor.py, lines 172-360): `temp_files`
accumulates intermediate artifacts inside the `try`;
`_cleanup_temp_files(temp_files)` is called at line 354, INSIDE the
`try` and only after the last encode succeeds; the `except` clause
(lines 358-360) logs and re-raises without any cleanup.  Returns
(outcome, the list submitted to cleanup).
-/
def processVideoCleanup (steps : List (Except Unit String)) :
    Except Unit Unit × List String :=
  match (runPipeline steps).2 with
  | .ok () => (.ok (), (runPipeline steps).1)
  | .error () => (.error (), [])

/--
The retry loop of `VideoProcessor._safe_delete_file`
(src/modules/video_processor.py, lines 24-40): each iteration sleeps
`delay` BEFORE the `unlink`; success returns; `PermissionError` doubles
the delay while attempts remain; any other error (including
`FileNotFoundError`, which has no dedicated arm here) logs and breaks.
Every branch returns or breaks: no exception propagates.  Returns
(deletion attempts made, sleep delays performed).
-/
def safeDeleteLoopPV (res : ℕ → DelResult) (maxRetries : ℕ) :
    ℕ → ℕ → ℚ → ℕ × List ℚ
  | 0, attempt, _ => (attempt, [])
  | remaining + 1, attempt, delay =>
    match res attempt with
    | .ok => (attempt + 1, [delay])
    | .notFound => (attempt + 1, [delay])
    | .otherErr => (attempt + 1, [delay])
    | .permErr =>
      if attempt + 1 < maxRetries then
        let t := safeDeleteLoopPV res maxRetries remaining (attempt + 1)
          (delay * 2)
        (t.1, delay :: t.2)
      else (attempt + 1, [delay])

/-- `VideoProcessor._safe_delete_file` (lines 19-40): an absent path
returns immediately; otherwise the retry loop runs (default
`max_retries = 3`, `initial_delay = 0.5`). -/
def safeDeleteFilePV (fileExists : Bool) (res : ℕ → DelResult)
    (maxRetries : ℕ) (initialDelay : ℚ) : Option (ℕ × List ℚ) :=
  if fileExists = false then none
  else some (safeDeleteLoopPV res maxRetries maxRetries 0 initialDelay)

/-- Index picked by `random.choice(available_videos)` in the selection
loop of `process_video`: the next entry of the choice sequence, reduced
modulo the current pool size. -/
def pvPickIdx (pool : List ℕ) (choices : List ℕ) : ℕ :=
  choices.headD 0 % pool.length

/-- The replenishment of the selection loop of
`VideoProcessor.process_video` (src/modules/video_processor.py, lines
255-257): the pool is refilled with the cut videos not yet in
`selected_videos`, or with the full cut-video list when every cut video
was already selected. -/
def replenishPV (cutVideos selected : List ℕ) : List ℕ :=
  if cutVideos.filter (fun w => ! selected.contains w) = [] then cutVideos
  else cutVideos.filter (fun w => ! selected.contains w)

/--
The selection loop of `VideoProcessor.process_video`
(src/modules/video_processor.py, lines 214-257).

Clips are identified by an index into the cut-video list `cutVideos`;
`dur v` is the probed duration of clip `v`; `pool` is
`available_videos`, `selected` the clips consumed whole so far
(`selected_videos` — the cut branch appends a fresh temp path instead,
but it breaks at once so that entry never feeds the replenishment
filter), `current` is `current_duration` and `choices` supplies the
`random.choice` picks.

One recursive call per iteration of the `while` loop (line 218): the
guard is `current_duration < audio_duration and available_videos`; a
clip probing non-positive is removed and skipped (`continue`, lines
224-226), bypassing the replenishment check; an overshooting clip is cut
down to `audio_duration - current_duration` and the loop breaks (lines
228-247); otherwise the clip is consumed whole (lines 248-251) and, when
the pool is empty with the target unmet, it is replenished from the cut
videos minus `selected_videos` (or the full list, lines 253-257).

Returns the final `current_duration`, or `none` if the loop has not
finished within `fuel` iterations.
-/
def pvSelLoop (cutVideos : List ℕ) (dur : ℕ → ℚ) (T : ℚ) :
    ℕ → List ℕ → List ℕ → ℚ → List ℕ → Option ℚ
  | 0, _, _, _, _ => none
  | fuel + 1, pool, selected, current, choices =>
    if T ≤ current then some current
    else if pool = [] then some current
    else if dur (pool.getD (pvPickIdx pool choices) 0) ≤ 0 then
      pvSelLoop cutVideos dur T fuel (pool.eraseIdx (pvPickIdx pool choices))
        selected current choices.tail
    else if T < current + dur (pool.getD (pvPickIdx pool choices) 0) then
      some T
    else
      pvSelLoop cutVideos dur T fuel
        (if current + dur (pool.getD (pvPickIdx pool choices) 0) < T ∧
            pool.eraseIdx (pvPickIdx pool choices) = []
         then replenishPV cutVideos
           (selected ++ [pool.getD (pvPickIdx pool choices) 0])
         else pool.eraseIdx (pvPickIdx pool choices))
        (selected ++ [pool.getD (pvPickIdx pool choices) 0])
        (current + dur (pool.getD (pvPickIdx pool choices) 0)) choices.tail

end VideoProc

namespace VideoProc

/-- The replenished pool of `process_video` only contains cut videos. -/
theorem replenishPV_subset (cutVideos selected : List ℕ) :
    ∀ v ∈ replenishPV cutVideos selected, v ∈ cutVideos := by
  intro v hv
  unfold replenishPV at hv
  by_cases h : cutVideos.filter (fun w => ! selected.contains w) = []
  · rw [if_pos h] at hv
    exact hv
  · rw [if_neg h] at hv
    exact (List.filter_sublist cutVideos).subset hv

/-- The replenished pool of `process_video` is non-empty whenever the
cut-video list is: the fallback of line 257 refills with the full list
when the filtered list is empty. -/
theorem replenishPV_ne_nil {cutVideos : List ℕ} (selected : List ℕ)
    (h : cutVideos ≠ []) : replenishPV cutVideos selected ≠ [] := by
  unfold replenishPV
  by_cases hf : cutVideos.filter (fun w => ! selected.contains w) = []
  · rw [if_pos hf]
    exact h
  · rw [if_neg hf]
    exact hf

/-- If the selection loop of `process_video` returns within its fuel on a
cut-video list whose clips all have positive probed duration, the
returned sum is exactly the target: same invariant as for
`select_random_videos`, with the pool always drawn from the cut-video
list. -/
theorem pvSelLoop_some_eq {cutVideos : List ℕ} {dur : ℕ → ℚ} {T : ℚ}
    (hfull : ∀ v ∈ cutVideos, 0 < dur v) (hne : cutVideos ≠ []) :
    ∀ (fuel : ℕ) (pool selected : List ℕ) (current : ℚ)
      (choices : List ℕ) (D : ℚ),
      (∀ v ∈ pool, v ∈ cutVideos) → current ≤ T →
      (pool = [] → T ≤ current) →
      pvSelLoop cutVideos dur T fuel pool selected current choices =
        some D → D = T := by
  intro fuel
  induction fuel with
  | zero =>
    intro pool selected current choices D _ _ _ h
    simp [pvSelLoop] at h
  | succ fuel ih =>
    intro pool selected current choices D hsub hcur hnil hrun
    rw [pvSelLoop] at hrun
    by_cases hTc : T ≤ current
    · rw [if_pos hTc] at hrun
      cases hrun
      exact le_antisymm hcur hTc
    · rw [if_neg hTc] at hrun
      by_cases hp : pool = []
      · exact absurd (hnil hp) hTc
      · rw [if_neg hp] at hrun
        have hi : pvPickIdx pool choices < pool.length := by
          unfold pvPickIdx
          exact Nat.mod_lt _ (List.length_pos.mpr hp)
        have hdmem : pool.getD (pvPickIdx pool choices) 0 ∈ pool := by
          rw [List.getD_eq_getElem _ _ hi]
          exact List.getElem_mem hi
        rw [if_neg (not_le.mpr (hfull _ (hsub _ hdmem)))] at hrun
        by_cases hcut :
            T < current + dur (pool.getD (pvPickIdx pool choices) 0)
        · rw [if_pos hcut] at hrun
          cases hrun
          rfl
        · rw [if_neg hcut] at hrun
          have hrest : pool.eraseIdx (pvPickIdx pool choices) ⊆ pool :=
            (List.eraseIdx_sublist _ _).subset
          refine ih _ _ _ _ D ?_ (not_lt.mp hcut) ?_ hrun
          · intro v hv
            by_cases hcond :
                current + dur (pool.getD (pvPickIdx pool choices) 0) < T ∧
                pool.eraseIdx (pvPickIdx pool choices) = []
            · rw [if_pos hcond] at hv
              exact replenishPV_subset _ _ v hv
            · rw [if_neg hcond] at hv
              exact hsub v (hrest hv)
          · intro hempty
            by_cases hcond :
                current + dur (pool.getD (pvPickIdx pool choices) 0) < T ∧
                pool.eraseIdx (pvPickIdx pool choices) = []
            · rw [if_pos hcond] at hempty
              exact absurd hempty (replenishPV_ne_nil _ hne)
            · rw [if_neg hcond] at hempty
              rcases not_and_or.mp hcond with hc | hc
              · exact not_lt.mp hc
              · exact absurd hempty hc

/-- The selection loop of `process_video` terminates within `n + 1`
iterations whenever every cut video has probed duration at least
`δ > 0` and `n` steps of size `δ` cover the remaining need. -/
theorem pvSelLoop_isSome {cutVideos : List ℕ} {dur : ℕ → ℚ} {T δ : ℚ}
    (hδ : 0 < δ) (hlb : ∀ v ∈ cutVideos, δ ≤ dur v) :
    ∀ (n : ℕ) (pool selected : List ℕ) (current : ℚ) (choices : List ℕ),
      (∀ v ∈ pool, v ∈ cutVideos) → T ≤ current + n * δ →
      (pvSelLoop cutVideos dur T (n + 1) pool selected current
        choices).isSome := by
  intro n
  induction n with
  | zero =>
    intro pool selected current choices _ hT
    rw [pvSelLoop]
    rw [Nat.cast_zero, zero_mul, add_zero] at hT
    rw [if_pos hT]
    rfl
  | succ n ih =>
    intro pool selected current choices hsub hT
    rw [pvSelLoop]
    by_cases hTc : T ≤ current
    · rw [if_pos hTc]; rfl
    · rw [if_neg hTc]
      by_cases hp : pool = []
      · rw [if_pos hp]; rfl
      · rw [if_neg hp]
        have hi : pvPickIdx pool choices < pool.length := by
          unfold pvPickIdx
          exact Nat.mod_lt _ (List.length_pos.mpr hp)
        have hdmem : pool.getD (pvPickIdx pool choices) 0 ∈ pool := by
          rw [List.getD_eq_getElem _ _ hi]
          exact List.getElem_mem hi
        have hdlb : δ ≤ dur (pool.getD (pvPickIdx pool choices) 0) :=
          hlb _ (hsub _ hdmem)
        rw [if_neg (not_le.mpr (lt_of_lt_of_le hδ hdlb))]
        by_cases hcut :
            T < current + dur (pool.getD (pvPickIdx pool choices) 0)
        · rw [if_pos hcut]; rfl
        · rw [if_neg hcut]
          apply ih
          · intro v hv
            by_cases hcond :
                current + dur (pool.getD (pvPickIdx pool choices) 0) < T ∧
                pool.eraseIdx (pvPickIdx pool choices) = []
            · rw [if_pos hcond] at hv
              exact replenishPV_subset _ _ v hv
            · rw [if_neg hcond] at hv
              exact hsub v ((List.eraseIdx_sublist _ _).subset hv)
          · have hstep : current + (↑(n + 1)) * δ
                ≤ current + dur (pool.getD (pvPickIdx pool choices) 0)
                  + ↑n * δ := by
              push_cast
              linarith
            exact le_trans hT hstep

end VideoProc

namespace HookBackground

/-- If the selection loop of `select_random_videos` returns within its
fuel on a pool whose clips all have positive probed duration, the
returned sum is exactly the target.  The invariant carried through the
loop: the accumulated duration never exceeds the target, and the pool is
only empty at the loop head when the target is already met. -/
theorem selLoop_some_eq {fullPool : List ℚ} {T : ℚ}
    (hfull : ∀ d ∈ fullPool, 0 < d) (hne : fullPool ≠ []) :
    ∀ (fuel : ℕ) (pool : List ℚ) (current : ℚ) (choices : List ℕ) (D : ℚ),
      (∀ d ∈ pool, 0 < d) → current ≤ T → (pool = [] → T ≤ current) →
      selLoop fullPool T fuel pool current choices = some D → D = T := by
  intro fuel
  induction fuel with
  | zero =>
    intro pool current choices D _ _ _ h
    simp [selLoop] at h
  | succ fuel ih =>
    intro pool current choices D hpos hcur hnil hrun
    rw [selLoop] at hrun
    by_cases hTc : T ≤ current
    · rw [if_pos hTc] at hrun
      cases hrun
      exact le_antisymm hcur hTc
    · rw [if_neg hTc] at hrun
      by_cases hp : pool = []
      · exact absurd (hnil hp) hTc
      · rw [if_neg hp] at hrun
        have hi : pickIdx pool choices < pool.length := by
          unfold pickIdx
          exact Nat.mod_lt _ (List.length_pos.mpr hp)
        have hdmem : pool.getD (pickIdx pool choices) 0 ∈ pool := by
          rw [List.getD_eq_getElem _ _ hi]
          exact List.getElem_mem hi
        rw [if_neg (not_le.mpr (hpos _ hdmem))] at hrun
        by_cases hcut : T < current + pool.getD (pickIdx pool choices) 0
        · rw [if_pos hcut] at hrun
          cases hrun
          rfl
        · rw [if_neg hcut] at hrun
          have hrest : pool.eraseIdx (pickIdx pool choices) ⊆ pool :=
            (List.eraseIdx_sublist _ _).subset
          refine ih _ _ _ D ?_ (not_lt.mp hcut) ?_ hrun
          · intro d hd
            by_cases hcond : current + pool.getD (pickIdx pool choices) 0 < T ∧
                pool.eraseIdx (pickIdx pool choices) = []
            · rw [if_pos hcond] at hd
              exact hfull d hd
            · rw [if_neg hcond] at hd
              exact hpos d (hrest hd)
          · intro hempty
            by_cases hcond : current + pool.getD (pickIdx pool choices) 0 < T ∧
                pool.eraseIdx (pickIdx pool choices) = []
            · rw [if_pos hcond] at hempty
              exact absurd hempty hne
            · rw [if_neg hcond] at hempty
              rcases not_and_or.mp hcond with hc | hc
              · exact not_lt.mp hc
              · exact absurd hempty hc

/-- The selection loop of `select_random_videos` terminates within
`n + 1` iterations whenever every clip of the full pool has duration at
least `δ > 0` and `n` steps of size `δ` cover the remaining need: every
loop iteration on such a pool consumes a whole clip (adding at least `δ`)
or cuts and stops. -/
theorem selLoop_isSome {fullPool : List ℚ} {T δ : ℚ}
    (hδ : 0 < δ) (hlb : ∀ d ∈ fullPool, δ ≤ d) :
    ∀ (n : ℕ) (pool : List ℚ) (current : ℚ) (choices : List ℕ),
      (∀ d ∈ pool, d ∈ fullPool) → T ≤ current + n * δ →
      (selLoop fullPool T (n + 1) pool current choices).isSome := by
  intro n
  induction n with
  | zero =>
    intro pool current choices _ hT
    rw [selLoop]
    rw [Nat.cast_zero, zero_mul, add_zero] at hT
    rw [if_pos hT]
    rfl
  | succ n ih =>
    intro pool current choices hsub hT
    rw [selLoop]
    by_cases hTc : T ≤ current
    · rw [if_pos hTc]; rfl
    · rw [if_neg hTc]
      by_cases hp : pool = []
      · rw [if_pos hp]; rfl
      · rw [if_neg hp]
        have hi : pickIdx pool choices < pool.length := by
          unfold pickIdx
          exact Nat.mod_lt _ (List.length_pos.mpr hp)
        have hdmem : pool.getD (pickIdx pool choices) 0 ∈ pool := by
          rw [List.getD_eq_getElem _ _ hi]
          exact List.getElem_mem hi
        have hdlb : δ ≤ pool.getD (pickIdx pool choices) 0 :=
          hlb _ (hsub _ hdmem)
        rw [if_neg (not_le.mpr (lt_of_lt_of_le hδ hdlb))]
        by_cases hcut : T < current + pool.getD (pickIdx pool choices) 0
        · rw [if_pos hcut]; rfl
        · rw [if_neg hcut]
          apply ih
          · intro d hd
            by_cases hcond : current + pool.getD (pickIdx pool choices) 0 < T ∧
                pool.eraseIdx (pickIdx pool choices) = []
            · rw [if_pos hcond] at hd
              exact hd
            · rw [if_neg hcond] at hd
              exact hsub d ((List.eraseIdx_sublist _ _).subset hd)
          · have hstep : current + (↑(n + 1)) * δ
                ≤ current + pool.getD (pickIdx pool choices) 0 + ↑n * δ := by
              push_cast
              linarith
            exact le_trans hT hstep

/-- Every list of positive rationals has a positive lower bound. -/
theorem exists_pos_lowerBound (l : List ℚ) (h : ∀ d ∈ l, 0 < d) :
    ∃ δ : ℚ, 0 < δ ∧ ∀ d ∈ l, δ ≤ d := by
  induction l with
  | nil => exact ⟨1, one_pos, by simp⟩
  | cons a t ih =>
    obtain ⟨δ, hδ, hlb⟩ := ih fun d hd => h d (List.mem_cons_of_mem _ hd)
    refine ⟨min a δ, lt_min (h a (List.mem_cons_self a t)) hδ, ?_⟩
    intro d hd
    rcases List.mem_cons.mp hd with rfl | hd
    · exact min_le_left _ _
    · exact le_trans (min_le_right _ _) (hlb d hd)

/-- Claim C1 (counterexample): with target duration `T = 3 > 0` and the
two-clip pool whose probed durations are `[1, 0]` — which contains the
usable clip of duration `1 > 0` — the selection order that probes the
usable clip first and the unusable clip second makes
`select_random_videos` return segments summing to `1`, strictly less than
the target `3`: the `continue` taken on the zero-duration clip skips the
replenishment step, the pool empties, and the loop exits early.  The
selection loop of `process_video` fails identically on the corresponding
pool (clips `0` and `1` with durations `1` and `0`).  So the claimed
bound `T ≤ D` fails on a pool with at least one usable clip, in both
cited selection loops. -/
theorem C1_counterexample :
    ((1 : ℚ) ∈ ([1, 0] : List ℚ) ∧ (0 : ℚ) < 1) ∧ (0 : ℚ) < 3 ∧
    selectRandomVideos [1, 0] 3 [0, 0] 5 = .ok (some 1) ∧
    VideoProc.pvSelLoop [0, 1] (fun v => if v = 0 then 1 else 0) 3 5
      [0, 1] [] 0 [0, 0] = some 1 ∧
    ¬ ((3 : ℚ) ≤ 1) := by
  refine ⟨⟨by simp, by norm_num⟩, by norm_num, ?_, ?_, by norm_num⟩
  · simp [selectRandomVideos, selLoop, pickIdx]
    norm_num
  · simp [VideoProc.pvSelLoop, VideoProc.pvPickIdx, VideoProc.replenishPV]
    norm_num

/-- Claim C1 (amended): for every target duration `T > 0`, on every
non-empty pool in which EVERY clip has positive probed duration, BOTH
segment-selection operations — the loop of `select_random_videos` and
the selection loop of `process_video` — terminate, and any total either
returns equals the target `T` exactly (the final overshooting clip is
cut down to exactly the remaining need, so `T ≤ D < T + ε` holds with
`D = T` in exact arithmetic).  When the pool merely contains at least
one usable clip, the original claim fails in both loops the same way
(see the counterexample): the `continue` on an unusable clip bypasses
the replenishment check. -/
theorem selectionLoops_all_usable_exact
    (fullPool : List ℚ) (T : ℚ) (choices : List ℕ)
    (cutVideos : List ℕ) (dur : ℕ → ℚ) (pvChoices : List ℕ)
    (hpos : ∀ d ∈ fullPool, 0 < d) (hne : fullPool ≠ [])
    (hposPV : ∀ v ∈ cutVideos, 0 < dur v) (hnePV : cutVideos ≠ [])
    (hT : 0 < T) :
    ((∃ fuel D, selLoop fullPool T fuel fullPool 0 choices = some D) ∧
      ∀ fuel D,
        selLoop fullPool T fuel fullPool 0 choices = some D → D = T) ∧
    ((∃ fuel D, VideoProc.pvSelLoop cutVideos dur T fuel cutVideos [] 0
        pvChoices = some D) ∧
      ∀ fuel D, VideoProc.pvSelLoop cutVideos dur T fuel cutVideos [] 0
        pvChoices = some D → D = T) := by
  refine ⟨⟨?_, ?_⟩, ?_, ?_⟩
  · obtain ⟨δ, hδ, hlb⟩ := exists_pos_lowerBound fullPool hpos
    obtain ⟨n, hn⟩ := exists_nat_ge (T / δ)
    have hTn : T ≤ 0 + ↑n * δ := by
      rw [zero_add]
      have := mul_le_mul_of_nonneg_right hn (le_of_lt hδ)
      rwa [div_mul_cancel₀ _ (ne_of_gt hδ)] at this
    have hsome := selLoop_isSome hδ hlb n fullPool 0 choices
      (fun _ hd => hd) hTn
    obtain ⟨D, hD⟩ := Option.isSome_iff_exists.mp hsome
    exact ⟨n + 1, D, hD⟩
  · intro fuel D h
    exact selLoop_some_eq hpos hne fuel fullPool 0 choices D hpos
      (le_of_lt hT) (fun hnil => absurd hnil hne) h
  · obtain ⟨δ, hδ, hlb⟩ := exists_pos_lowerBound (cutVideos.map dur) (by
      intro d hd
      obtain ⟨v, hv, rfl⟩ := List.mem_map.mp hd
      exact hposPV v hv)
    have hlbv : ∀ v ∈ cutVideos, δ ≤ dur v := fun v hv =>
      hlb _ (List.mem_map_of_mem dur hv)
    obtain ⟨n, hn⟩ := exists_nat_ge (T / δ)
    have hTn : T ≤ 0 + ↑n * δ := by
      rw [zero_add]
      have := mul_le_mul_of_nonneg_right hn (le_of_lt hδ)
      rwa [div_mul_cancel₀ _ (ne_of_gt hδ)] at this
    have hsome := VideoProc.pvSelLoop_isSome hδ hlbv n cutVideos [] 0
      pvChoices (fun _ hd => hd) hTn
    obtain ⟨D, hD⟩ := Option.isSome_iff_exists.mp hsome
    exact ⟨n + 1, D, hD⟩
  · intro fuel D h
    exact VideoProc.pvSelLoop_some_eq hposPV hnePV fuel cutVideos [] 0
      pvChoices D (fun _ hd => hd) (le_of_lt hT)
      (fun hnil => absurd hnil hnePV) h

/-- Witness for the amended claim C1: `select_random_videos` on the
concrete pool of durations `[2]` and `process_video` on one cut video of
duration `2`, both against target `3`; the hypotheses hold and the
conclusion follows by applying the theorem. -/
theorem selectionLoops_all_usable_exact_witness :
    ((∃ fuel D, selLoop [2] 3 fuel [2] 0 [] = some D) ∧
      ∀ fuel D, selLoop [2] 3 fuel [2] 0 [] = some D → D = 3) ∧
    ((∃ fuel D, VideoProc.pvSelLoop [0] (fun _ => 2) 3 fuel [0] [] 0 []
        = some D) ∧
      ∀ fuel D, VideoProc.pvSelLoop [0] (fun _ => 2) 3 fuel [0] [] 0 []
        = some D → D = 3) :=
  selectionLoops_all_usable_exact [2] 3 [] [0] (fun _ => 2) []
    (by norm_num) (by norm_num) (by intro v _; norm_num) (by norm_num)
    (by norm_num)

/-- A pass over a pool whose clips all have non-positive probed duration
accumulates nothing. -/
theorem fillPass_of_nonpos (T : ℚ) :
    ∀ (l : List ℚ) (current : ℚ), (∀ d ∈ l, d ≤ 0) →
      fillPass T l current = current := by
  intro l
  induction l with
  | nil => intro current _; rfl
  | cons a t ih =>
    intro current h
    rw [fillPass, if_pos (h a (List.mem_cons_self a t))]
    exact ih current fun d hd => h d (List.mem_cons_of_mem _ hd)

/-- Claim C2: on a pool in which every candidate clip probes to a
non-positive duration, the reuse loop of `process_background_videos` never
terminates — for every amount of fuel it fails to return — because each
pass leaves the accumulated duration unchanged and strictly below the
target.  The claimed behaviour (fail with `InsufficientMediaError` after
boundedly many replenishment cycles) is therefore violated by the code:
this is the latent infinite loop. -/
theorem processBackgroundVideos_diverges_on_unusable_pool :
    ∀ (durations : List ℚ) (T : ℚ) (fuel : ℕ) (current : ℚ),
      (∀ d ∈ durations, d ≤ 0) → current < T →
      fillLoop durations T fuel current = none := by
  intro durations T fuel
  induction fuel with
  | zero => intro current _ _; rfl
  | succ fuel ih =>
    intro current h hlt
    rw [fillLoop, if_neg (not_le.mpr hlt),
      fillPass_of_nonpos T durations current h]
    exact ih current h hlt

/-- Witness for C2 at a concrete unusable pool: a single clip of probed
duration `0` against target `1` makes the reuse loop spin for any fuel,
here evaluated at fuel `100`. -/
theorem processBackgroundVideos_diverges_witness :
    (∀ d ∈ ([0] : List ℚ), d ≤ 0) ∧ (0 : ℚ) < 1 ∧
    fillLoop [0] 1 100 0 = none :=
  ⟨by simp, by norm_num,
    processBackgroundVideos_diverges_on_unusable_pool [0] 1 100 0
      (by simp) (by norm_num)⟩

end HookBackground

namespace HookVideo

/-- Claim C3: `process_hook_video` makes exactly two total pipeline
attempts.  If the first attempt fails and the second succeeds, the job
ends successfully after exactly two attempts; if both fail, the failure is
surfaced after exactly two attempts; a first-attempt success ends after
one attempt. -/
theorem processHookVideo_two_attempts (outcome : ℕ → Bool) :
    (outcome 0 = false → outcome 1 = true →
      processHookVideo outcome = .ok 2) ∧
    (outcome 0 = false → outcome 1 = false →
      processHookVideo outcome = .error 2) ∧
    (outcome 0 = true → processHookVideo outcome = .ok 1) := by
  refine ⟨?_, ?_, ?_⟩
  · intro h0 h1
    simp [processHookVideo, attemptLoop, h0, h1]
  · intro h0 h1
    simp [processHookVideo, attemptLoop, h0, h1]
  · intro h0
    simp [processHookVideo, attemptLoop, h0]

/-- Witness for C3 at concrete pipelines: one that fails first and then
succeeds, and one that always fails. -/
theorem processHookVideo_two_attempts_witness :
    processHookVideo (fun n => decide (n = 1)) = .ok 2 ∧
    processHookVideo (fun _ => false) = .error 2 :=
  ⟨(processHookVideo_two_attempts (fun n => decide (n = 1))).1
      (by decide) (by decide),
   (processHookVideo_two_attempts (fun _ => false)).2.1 rfl rfl⟩

/-- Claim C4 (counterexample): for the encoder environment in which the
GPU codec path fails and the CPU codec path succeeds, the subtitle-burn
component `_process_video_with_subtitle` still fails — it lacks the CPU
fallback entirely, contradicting the claim that every encoder-invoking
component completes successfully via the CPU path after a GPU failure. -/
theorem C4_counterexample :
    (fun c => decide (c = Codec.libx264)) Codec.nvenc = false ∧
    (fun c => decide (c = Codec.libx264)) Codec.libx264 = true ∧
    processVideoWithSubtitle (fun c => decide (c = Codec.libx264)) =
      .error () := by
  refine ⟨rfl, rfl, rfl⟩

/-- Claim C4 (amended): on a GPU-path failure, the segment cut
(`VideoCutter.cut_video`) and the thumbnail composite
(`_add_thumbnail_with_fade`) retry exactly once with the CPU argument set
— succeeding in two invocations when the CPU path succeeds, and stopping
after the second invocation (no further retries) when it fails — while
the subtitle burn (`_process_video_with_subtitle`) has no CPU fallback at
all and surfaces the GPU failure directly. -/
theorem encoderFallback_amended (run : Codec → Bool)
    (hgpu : run .nvenc = false) :
    (run .libx264 = true →
      VideoCutter.cutVideo run true = (true, 2) ∧
      addThumbnailWithFade run true = .ok 2 ∧
      processVideoWithSubtitle run = .error ()) ∧
    (run .libx264 = false →
      VideoCutter.cutVideo run true = (false, 2) ∧
      addThumbnailWithFade run true = .error () ∧
      processVideoWithSubtitle run = .error ()) := by
  constructor
  · intro hcpu
    refine ⟨?_, ?_, ?_⟩ <;>
      simp [VideoCutter.cutVideo, addThumbnailWithFade,
        processVideoWithSubtitle, getEncodingSettings, hgpu, hcpu]
  · intro hcpu
    refine ⟨?_, ?_, ?_⟩ <;>
      simp [VideoCutter.cutVideo, addThumbnailWithFade,
        processVideoWithSubtitle, getEncodingSettings, hgpu, hcpu]

/-- Witness for the amended claim C4 at the two concrete encoder
environments: GPU fails with CPU succeeding, and both paths failing. -/
theorem encoderFallback_amended_witness :
    (VideoCutter.cutVideo (fun c => decide (c = Codec.libx264)) true =
        (true, 2) ∧
      addThumbnailWithFade (fun c => decide (c = Codec.libx264)) true =
        .ok 2 ∧
      processVideoWithSubtitle (fun c => decide (c = Codec.libx264)) =
        .error ()) ∧
    (VideoCutter.cutVideo (fun _ => false) true = (false, 2) ∧
      addThumbnailWithFade (fun _ => false) true = .error () ∧
      processVideoWithSubtitle (fun _ => false) = .error ()) :=
  ⟨(encoderFallback_amended (fun c => decide (c = Codec.libx264))
      (by decide)).1 (by decide),
   (encoderFallback_amended (fun _ => false) rfl).2 rfl⟩

/-- Claim C5 (counterexample): `VideoCutter.get_video_duration` on a probe
that exits with code 2 does not return `0.0` — it propagates the
exception (`check=True` raises, the handler re-raises), contradicting the
claim that the duration-probing operation never propagates. -/
theorem C5_counterexample :
    VideoCutter.cutterGetVideoDuration (some (2, .unparsable)) =
      .error () ∧
    VideoCutter.cutterGetVideoDuration (some (2, .unparsable)) ≠ .ok 0 := by
  refine ⟨rfl, by simp [VideoCutter.cutterGetVideoDuration]⟩

/-- Claim C5 (amended): `HookVideoProcessor.get_video_duration` returns
`0.0` and never raises on every failure mode — missing file after an
empty sibling glob, `stat` failure, empty file, probe subprocess raising,
non-zero exit code, empty output, unparsable output — and consults the
sibling-file glob before giving up on a missing file; but
`VideoCutter.get_video_duration` propagates every probe failure as an
exception instead of returning `0.0`. -/
theorem getVideoDuration_amended (sz : Option ℕ) (r : Option (ℤ × Stdout))
    (sib : FileInfo) (n : ℕ) (rc : ℤ) (out : Stdout) (q : ℚ)
    (hrc : rc ≠ 0) :
    getVideoDuration ⟨⟨false, sz, r⟩, none⟩ = 0 ∧
    getVideoDuration ⟨⟨false, sz, r⟩, some sib⟩ =
      getVideoDuration ⟨sib, none⟩ ∧
    getVideoDuration ⟨⟨true, none, r⟩, none⟩ = 0 ∧
    getVideoDuration ⟨⟨true, some 0, r⟩, none⟩ = 0 ∧
    getVideoDuration ⟨⟨true, some (n + 1), none⟩, none⟩ = 0 ∧
    getVideoDuration ⟨⟨true, some (n + 1), some (rc, out)⟩, none⟩ = 0 ∧
    getVideoDuration ⟨⟨true, some (n + 1), some (0, .empty)⟩, none⟩ = 0 ∧
    getVideoDuration ⟨⟨true, some (n + 1), some (0, .unparsable)⟩, none⟩
      = 0 ∧
    getVideoDuration ⟨⟨true, some (n + 1), some (0, .value q)⟩, none⟩
      = q ∧
    VideoCutter.cutterGetVideoDuration (some (rc, out)) = .error () ∧
    VideoCutter.cutterGetVideoDuration none = .error () := by
  obtain ⟨p, s2, r2⟩ := sib
  refine ⟨by simp [getVideoDuration], ?_, by simp [getVideoDuration],
    by simp [getVideoDuration], by simp [getVideoDuration],
    by simp [getVideoDuration, hrc], by simp [getVideoDuration],
    by simp [getVideoDuration], by simp [getVideoDuration],
    by simp [VideoCutter.cutterGetVideoDuration, hrc], rfl⟩
  cases p <;> simp [getVideoDuration]

/-- Witness for the amended claim C5 at concrete inputs: a missing file
with no sibling, a non-zero probe exit, and a parsed duration of 7. -/
theorem getVideoDuration_amended_witness :
    getVideoDuration ⟨⟨false, none, none⟩, none⟩ = 0 ∧
    getVideoDuration ⟨⟨false, none, none⟩,
      some ⟨true, some 3, some (0, .value 7)⟩⟩ =
      getVideoDuration ⟨⟨true, some 3, some (0, .value 7)⟩, none⟩ ∧
    getVideoDuration ⟨⟨true, none, none⟩, none⟩ = 0 ∧
    getVideoDuration ⟨⟨true, some 0, none⟩, none⟩ = 0 ∧
    getVideoDuration ⟨⟨true, some 1, none⟩, none⟩ = 0 ∧
    getVideoDuration ⟨⟨true, some 1, some (1, .empty)⟩, none⟩ = 0 ∧
    getVideoDuration ⟨⟨true, some 1, some (0, .empty)⟩, none⟩ = 0 ∧
    getVideoDuration ⟨⟨true, some 1, some (0, .unparsable)⟩, none⟩ = 0 ∧
    getVideoDuration ⟨⟨true, some 1, some (0, .value 7)⟩, none⟩ = 7 ∧
    VideoCutter.cutterGetVideoDuration (some (1, .empty)) = .error () ∧
    VideoCutter.cutterGetVideoDuration none = .error () :=
  getVideoDuration_amended none none ⟨true, some 3, some (0, .value 7)⟩
    0 1 .empty 7 (by decide)

end HookVideo

namespace VideoProc

/-- Claim C6 (counterexample): in `VideoProcessor.process_video`, a run
whose first step produces the temp file `cut_0000.mp4` and whose next
step raises reaches the failure terminal state with an empty cleanup
submission: `_cleanup_temp_files` sits inside the `try` on the success
path only, so the accumulated temp file is never submitted for deletion
on failure. -/
theorem C6_counterexample :
    (runPipeline [.ok "cut_0000.mp4", .error ()]).1 = ["cut_0000.mp4"] ∧
    processVideoCleanup [.ok "cut_0000.mp4", .error ()] =
      (.error (), []) :=
  ⟨rfl, rfl⟩

/-- Claim C6 (amended): `process_hook_video` submits every accumulated
temp file to the deletion routine on BOTH terminal outcomes (its
`finally` block), whereas `process_video` submits the accumulated files
only on the success path and submits nothing when the pipeline fails. -/
theorem cleanupOnTerminal_amended (s1 s2 s : List (Except Unit String)) :
    ((runPipeline s1).2 = .ok () →
      (HookVideo.processHookVideoCleanup s1 s2).2 = (runPipeline s1).1) ∧
    ((runPipeline s1).2 = .error () →
      (HookVideo.processHookVideoCleanup s1 s2).2 =
        (runPipeline s1).1 ++ (runPipeline s2).1) ∧
    ((runPipeline s).2 = .ok () →
      (processVideoCleanup s).2 = (runPipeline s).1) ∧
    ((runPipeline s).2 = .error () → (processVideoCleanup s).2 = []) := by
  refine ⟨?_, ?_, ?_, ?_⟩ <;> intro h <;>
    simp [HookVideo.processHookVideoCleanup, processVideoCleanup, h]

/-- Witness for the amended claim C6 at concrete step lists: a succeeding
pipeline, a failing first attempt with a succeeding retry, a succeeding
`process_video`, and a failing `process_video`. -/
theorem cleanupOnTerminal_amended_witness :
    ((HookVideo.processHookVideoCleanup [.ok "a"] [.ok "b"]).2 =
      (runPipeline [.ok "a"]).1) ∧
    ((HookVideo.processHookVideoCleanup [.error ()] [.ok "b"]).2 =
      (runPipeline [.error ()]).1 ++ (runPipeline [.ok "b"]).1) ∧
    ((processVideoCleanup [.ok "a"]).2 = (runPipeline [.ok "a"]).1) ∧
    ((processVideoCleanup [.error ()]).2 = []) :=
  ⟨(cleanupOnTerminal_amended [.ok "a"] [.ok "b"] [.ok "a"]).1 rfl,
   (cleanupOnTerminal_amended [.error ()] [.ok "b"] [.ok "a"]).2.1 rfl,
   (cleanupOnTerminal_amended [.ok "a"] [.ok "b"] [.ok "a"]).2.2.1 rfl,
   (cleanupOnTerminal_amended [.ok "a"] [.ok "b"] [.error ()]).2.2.2 rfl⟩

end VideoProc

/-- Claim C7 (counterexample): in all three concatenation operations —
`HookVideoProcessor.concatenate_videos`,
`HookVideoProcessor._concatenate_videos` and
`HookBackgroundProcessor.concatenate_videos` — a failed encode leaves the
manifest file on disk (the unlink sits after the `check=True` run inside
the `try`), contradicting the claim that the manifest never survives a
failed concatenation. -/
theorem C7_counterexample :
    HookVideo.concatenateVideos false = (.error (), false) ∧
    HookVideo.reConcatenateVideos false = (.error (), false) ∧
    HookBackground.backgroundConcatenateVideos false =
      (.error (), false) :=
  ⟨rfl, rfl, rfl⟩

/-- Claim C7 (amended): each of the three concatenation operations
deletes its manifest exactly when the encode succeeds; when the encode
fails, the error propagates and the manifest survives. -/
theorem concatManifest_amended :
    (HookVideo.concatenateVideos true = (.ok (), true) ∧
      HookVideo.concatenateVideos false = (.error (), false)) ∧
    (HookVideo.reConcatenateVideos true = (.ok (), true) ∧
      HookVideo.reConcatenateVideos false = (.error (), false)) ∧
    (HookBackground.backgroundConcatenateVideos true = (.ok (), true) ∧
      HookBackground.backgroundConcatenateVideos false =
        (.error (), false)) :=
  ⟨⟨rfl, rfl⟩, ⟨rfl, rfl⟩, ⟨rfl, rfl⟩⟩

/-- Claim C8 (counterexample): the orientation flag does select the clip
pool directory, but a horizontal (`is_vertical = false`) hook background
part is produced by a stream copy with no scale filter, so a 1280x720
source clip yields a 1280x720 part — not the claimed 1920x1080 target
resolution. -/
theorem C8_counterexample :
    HookBackground.inputDirName true = "Input_9_16" ∧
    HookBackground.inputDirName false = "Input_16_9" ∧
    outputRes (HookBackground.hookCutCmd false) (1280, 720) =
      (1280, 720) ∧
    ((1280, 720) : ℕ × ℕ) ≠ (1920, 1080) :=
  ⟨rfl, rfl, rfl, by decide⟩

/-- Claim C8 (amended): `is_vertical` selects the pool directory
(`Input_9_16` vs `Input_16_9`) in both orientations; the VERTICAL
background parts (hook cut, main cut, main pieces) are all scaled to
1080x1920, and the subtitle burn scales to the orientation's target in
both orientations; but the HORIZONTAL background parts are stream-copied
without a scale filter, so their resolution is whatever the source clip
has. -/
theorem orientationResolution_amended (src : ℕ × ℕ) :
    HookBackground.inputDirName true = "Input_9_16" ∧
    HookBackground.inputDirName false = "Input_16_9" ∧
    outputRes (HookBackground.hookCutCmd true) src = (1080, 1920) ∧
    outputRes (HookBackground.mainCutCmd true) src = (1080, 1920) ∧
    outputRes (HookBackground.mainPartCmd true) src = (1080, 1920) ∧
    HookVideo.subtitleScale true = (1080, 1920) ∧
    HookVideo.subtitleScale false = (1920, 1080) ∧
    outputRes (HookBackground.hookCutCmd false) src = src ∧
    outputRes (HookBackground.mainCutCmd false) src = src ∧
    outputRes (HookBackground.mainPartCmd false) src = src ∧
    (HookBackground.hookCutCmd false).reencode = false :=
  ⟨rfl, rfl, rfl, rfl, rfl, rfl, rfl, rfl, rfl, rfl, rfl⟩

/-- Claim C9 (counterexample): two distinct jobs (identities 1 and 2)
that share the temp directory and create their files in the same clock
second produce exactly the same set of temp file names — in particular
both produce `hook_background.mp4` — so the claimed per-job namespacing
and disjointness fail. -/
theorem C9_counterexample :
    (1 : ℕ) ≠ 2 ∧
    HookVideo.jobTempNames 1 1700000000 =
      HookVideo.jobTempNames 2 1700000000 ∧
    HookBackground.hookBackgroundName ∈
      HookVideo.jobTempNames 1 1700000000 ∧
    HookBackground.hookBackgroundName ∈
      HookVideo.jobTempNames 2 1700000000 := by
  refine ⟨by decide, rfl, ?_, ?_⟩ <;> simp [HookVideo.jobTempNames]

/-- Claim C9 (amended): temp file names embed only a base name, the
clock second, and fixed constants — never a job identifier — so the name
sets of any two jobs coincide at equal timestamps, and the fixed names
(e.g. `hook_background.mp4`) are shared by all jobs at ALL timestamps:
concurrent jobs sharing one temp directory can collide. -/
theorem tempNames_amended (j1 j2 t t1 t2 : ℕ) :
    HookVideo.jobTempNames j1 t = HookVideo.jobTempNames j2 t ∧
    HookVideo.getTempFilename "normalized_hook" "wav" t ∈
      HookVideo.jobTempNames j1 t ∧
    HookBackground.hookBackgroundName ∈ HookVideo.jobTempNames j1 t1 ∧
    HookBackground.hookBackgroundName ∈ HookVideo.jobTempNames j2 t2 := by
  refine ⟨rfl, ?_, ?_, ?_⟩ <;> simp [HookVideo.jobTempNames]

namespace HookVideo

/-- On a file whose every deletion attempt raises `PermissionError`, the
retry loop of `HookVideoProcessor._safe_delete_file` performs all
remaining attempts, sleeping with exponentially doubling delays between
consecutive attempts, and returns `False`. -/
theorem safeDeleteLoop_perm (res : ℕ → DelResult)
    (hres : ∀ i, res i = .permErr) (m : ℕ) :
    ∀ (r a : ℕ) (d : ℚ), a + r = m → 1 ≤ r →
      safeDeleteLoop res m r a d =
        (false, m, (List.range (r - 1)).map fun i => d * 2 ^ i) := by
  intro r
  induction r with
  | zero =>
    intro a d _ h1
    exact absurd h1 (by omega)
  | succ r ih =>
    intro a d hsum _
    rw [safeDeleteLoop]
    simp only [hres a]
    rcases Nat.eq_zero_or_pos r with rfl | hr
    · rw [if_neg (by omega)]
      have ham : a + 1 = m := by omega
      simp [ham]
    · rw [if_pos (by omega)]
      rw [ih (a + 1) (d * 2) (by omega) hr]
      obtain ⟨k, rfl⟩ := Nat.exists_eq_succ_of_ne_zero (Nat.pos_iff_ne_zero.mp hr)
      simp only [Nat.succ_sub_one, Nat.add_sub_cancel, Prod.mk.injEq,
        true_and]
      rw [List.range_succ_eq_map, List.map_cons, List.map_map]
      congr 1
      · rw [pow_zero, mul_one]
      · refine List.map_congr_left ?_
        intro i _
        simp only [Function.comp]
        rw [pow_succ]
        ring

/-- On a file whose every deletion attempt raises `PermissionError`, the
retry loop of `VideoProcessor._safe_delete_file` performs all remaining
attempts, sleeping before each attempt with exponentially doubling
delays, and ends with a warning. -/
theorem safeDeleteLoopPV_perm (res : ℕ → DelResult)
    (hres : ∀ i, res i = .permErr) (m : ℕ) :
    ∀ (r a : ℕ) (d : ℚ), a + r = m → 1 ≤ r →
      VideoProc.safeDeleteLoopPV res m r a d =
        (m, (List.range r).map fun i => d * 2 ^ i) := by
  intro r
  induction r with
  | zero =>
    intro a d _ h1
    exact absurd h1 (by omega)
  | succ r ih =>
    intro a d hsum _
    rw [VideoProc.safeDeleteLoopPV]
    simp only [hres a]
    rcases Nat.eq_zero_or_pos r with rfl | hr
    · rw [if_neg (by omega)]
      have ham : a + 1 = m := by omega
      simp [ham, List.range_succ]
    · rw [if_pos (by omega)]
      rw [ih (a + 1) (d * 2) (by omega) hr]
      simp only [Prod.mk.injEq, true_and]
      rw [List.range_succ_eq_map, List.map_cons, List.map_map]
      congr 1
      · rw [pow_zero, mul_one]
      · refine List.map_congr_left ?_
        intro i _
        simp only [Function.comp]
        rw [pow_succ]
        ring

/-- Claim C10: neither `_safe_delete_file` ever propagates an exception.
For `HookVideoProcessor._safe_delete_file`: an absent file is a no-op
(treated as success), a first-attempt success or `FileNotFoundError`
returns `True` after one attempt, any other deletion error ends the
routine immediately after that single attempt with `False`, and a file
that raises `PermissionError` on every attempt is retried up to the
bounded maximum with exponentially doubling sleep delays before giving
up.  For `VideoProcessor._safe_delete_file`: an absent file is a no-op,
any non-permission error ends the routine after that single attempt, and
all-`PermissionError` files exhaust the bounded attempts with doubling
delays. -/
theorem safeDeleteFile_no_propagate (res : ℕ → DelResult) (m : ℕ)
    (d : ℚ) :
    safeDeleteFile false res m d = none ∧
    (res 0 = .ok →
      safeDeleteFile true res (m + 1) d = some (true, 1, [])) ∧
    (res 0 = .notFound →
      safeDeleteFile true res (m + 1) d = some (true, 1, [])) ∧
    (res 0 = .otherErr →
      safeDeleteFile true res (m + 1) d = some (false, 1, [])) ∧
    ((∀ i, res i = .permErr) →
      safeDeleteFile true res (m + 1) d =
        some (false, m + 1, (List.range m).map fun i => d * 2 ^ i)) ∧
    VideoProc.safeDeleteFilePV false res m d = none ∧
    (res 0 = .otherErr →
      VideoProc.safeDeleteFilePV true res (m + 1) d = some (1, [d])) ∧
    ((∀ i, res i = .permErr) →
      VideoProc.safeDeleteFilePV true res (m + 1) d =
        some (m + 1, (List.range (m + 1)).map fun i => d * 2 ^ i)) := by
  refine ⟨rfl, ?_, ?_, ?_, ?_, rfl, ?_, ?_⟩
  · intro h
    simp [safeDeleteFile, safeDeleteLoop, h]
  · intro h
    simp [safeDeleteFile, safeDeleteLoop, h]
  · intro h
    simp [safeDeleteFile, safeDeleteLoop, h]
  · intro h
    have := safeDeleteLoop_perm res h (m + 1) (m + 1) 0 d (by omega)
      (by omega)
    simp only [Nat.succ_sub_one] at this
    simp [safeDeleteFile, this]
  · intro h
    simp [VideoProc.safeDeleteFilePV, VideoProc.safeDeleteLoopPV, h]
  · intro h
    have := safeDeleteLoopPV_perm res h (m + 1) (m + 1) 0 d (by omega)
      (by omega)
    simp [VideoProc.safeDeleteFilePV, this]

/-- Witness for C10 at the source defaults: `max_retries = 5`,
`initial_delay = 0.5` for the hook-side routine (and `max_retries = 3`
for the `VideoProcessor` routine), evaluated on concrete deletion
environments. -/
theorem safeDeleteFile_no_propagate_witness :
    safeDeleteFile false (fun _ => DelResult.permErr) 5 (1 / 2) = none ∧
    safeDeleteFile true (fun _ => DelResult.ok) 5 (1 / 2) =
      some (true, 1, []) ∧
    safeDeleteFile true (fun _ => DelResult.notFound) 5 (1 / 2) =
      some (true, 1, []) ∧
    safeDeleteFile true (fun _ => DelResult.otherErr) 5 (1 / 2) =
      some (false, 1, []) ∧
    safeDeleteFile true (fun _ => DelResult.permErr) 5 (1 / 2) =
      some (false, 5, (List.range 4).map fun i => (1 / 2 : ℚ) * 2 ^ i) ∧
    VideoProc.safeDeleteFilePV true (fun _ => DelResult.otherErr) 3
      (1 / 2) = some (1, [1 / 2]) ∧
    VideoProc.safeDeleteFilePV true (fun _ => DelResult.permErr) 3
      (1 / 2) =
      some (3, (List.range 3).map fun i => (1 / 2 : ℚ) * 2 ^ i) :=
  ⟨(safeDeleteFile_no_propagate (fun _ => .permErr) 4 (1 / 2)).1,
   (safeDeleteFile_no_propagate (fun _ => .ok) 4 (1 / 2)).2.1 rfl,
   (safeDeleteFile_no_propagate (fun _ => .notFound) 4 (1 / 2)).2.2.1 rfl,
   (safeDeleteFile_no_propagate (fun _ => .otherErr) 4 (1 / 2)).2.2.2.1
     rfl,
   (safeDeleteFile_no_propagate (fun _ => .permErr) 4 (1 / 2)).2.2.2.2.1
     (fun _ => rfl),
   (safeDeleteFile_no_propagate (fun _ => .otherErr) 2
     (1 / 2)).2.2.2.2.2.2.1 rfl,
   (safeDeleteFile_no_propagate (fun _ => .permErr) 2
     (1 / 2)).2.2.2.2.2.2.2 (fun _ => rfl)⟩

end HookVideo
